import Mathlib

/-!
Verification development for the rjoin streaming sort-merge join.

The Rust sources are shallowly embedded: byte buffers become `List Nat`,
half-open ranges `start..end` become `Nat × Nat`, fallible functions return
`Except`.  Each definition mirrors one function of the repository
(`src/src`, `src/csvroll`, `src/rollbuf`); the few helpers whose source
file is absent from the tree (`csvroll/src/avx.rs`, `csvroll/src/bit.rs`)
are modelled from the specification and marked as such.
-/

namespace Rjoin

/-- Byte-slice extraction: the Lean counterpart of indexing a Rust byte
slice with a half-open range, `buf[r.start..r.end]` (truncating instead of
panicking when the range exceeds the buffer). -/
def sliceR (buf : List Nat) (r : Nat × Nat) : List Nat :=
  (buf.drop r.1).take (r.2 - r.1)

/-- Lexicographic comparison of byte slices, the behaviour of Rust
`<[u8] as Ord>::cmp`. -/
def cmpBytes : List Nat → List Nat → Ordering
  | [], [] => .eq
  | [], _ :: _ => .lt
  | _ :: _, [] => .gt
  | x :: xs, y :: ys =>
    if x < y then .lt else if y < x then .gt else cmpBytes xs ys

/-- Embedding of `csvroll::parser::Index`: field byte ranges plus record
bounds (exclusive upper bounds into `fields`). -/
structure Index where
  fields : List (Nat × Nat)
  records : List Nat
  deriving Repr, DecidableEq

/-- Embedding of `Index::push_field`. -/
def Index.push_field (idx : Index) (f : Nat × Nat) : Index :=
  { idx with fields := idx.fields ++ [f] }

/-- Embedding of `Index::push_record`. -/
def Index.push_record (idx : Index) (r : Nat) : Index :=
  { idx with records := idx.records ++ [r] }

/-- Embedding of `Index::get_record` (parser.rs): the range into `fields`
occupied by record `n`. -/
def Index.get_record (idx : Index) (n : Nat) : Option (Nat × Nat) :=
  if n ≥ idx.records.length then none
  else
    match idx.records[n]? with
    | none => none
    | some e =>
      let s := match n with
        | 0 => 0
        | m + 1 =>
          match idx.records[m]? with
          | some s => s
          | none => 0
      some (s, e)

/-- Embedding of `cmp_records` from `src/src/group_zerocopy.rs`: walk the
two key-index lists in lockstep (Rust `zip`), look up the field range of
each index in the respective record, compare the byte slices
lexicographically, and stop at the first strict inequality.  `Except.error
0` (resp. `1`) reports a missing field in the first (resp. second)
record. -/
def cmp_records (buf0 buf1 : List Nat) (rec_0 rec_1 : List (Nat × Nat)) :
    List Nat → List Nat → Except Nat Ordering
  | k0 :: ks0, k1 :: ks1 =>
    match rec_0[k0]? with
    | none => .error 0
    | some f0 =>
      match rec_1[k1]? with
      | none => .error 1
      | some f1 =>
        match cmpBytes (sliceR buf0 f0) (sliceR buf1 f1) with
        | .lt => .ok .lt
        | .gt => .ok .gt
        | .eq => cmp_records buf0 buf1 rec_0 rec_1 ks0 ks1
  | _, _ => .ok .eq

/-- Model of Rust `str::parse::<usize>`: a nonempty all-digit string
parses to its decimal value.  (Rust additionally accepts a leading plus
sign, which no claim exercises.) -/
def parse_usize (s : String) : Option Nat :=
  if s.data ≠ [] ∧ s.data.all (fun c => c.isDigit) then
    some (s.data.foldl (fun a c => a * 10 + (c.toNat - 48)) 0)
  else none

/-- Embedding of `validate_key` from `src/src/bin/args.rs`, first stage:
parse every comma-separated token with Rust `str::parse::<usize>`,
reporting the 1-based position of the first token that fails to parse. -/
def validate_key_parse (which : String) : Nat → List String → Except String (List Nat)
  | _, [] => .ok []
  | x, s :: rest =>
    match parse_usize s with
    | none =>
      .error ("could not parse the " ++ which ++ "key parameter at the position "
        ++ toString (x + 1))
    | some i => (validate_key_parse which (x + 1) rest).map (fun v => i :: v)

/-- Embedding of `validate_key` from `src/src/bin/args.rs`: parse the
tokens, reject any index below 1, and shift every index down by one.  The
function performs no other check. -/
def validate_key (k : List String) (which : String) : Except String (List Nat) :=
  match validate_key_parse which 0 k with
  | .error e => .error e
  | .ok v =>
    if v.any (fun i => i < 1) then .error "the key fields must use 1-based numbering"
    else .ok (v.map (fun i => i - 1))

/-- Embedding of `main` from `src/src/bin/main.rs`: `Args::parse().and_then(run)`
either succeeds or yields an error; the error branch prints the single
line `error: {e}` to the error sink and falls through.  Since `main`
returns unit and never calls `process::exit`, the Rust runtime exits with
status 0 in both branches.  The embedding returns the process exit code
together with the list of diagnostic lines written to the error sink. -/
def mainRun (r : Except String Unit) : Nat × List String :=
  match r with
  | .ok _ => (0, [])
  | .error e => (0, ["error: " ++ e])

/-- Modelled from the spec: `bit::r` lives in `csvroll/src/bit.rs`, which
is absent from the tree; the merge pass uses it to advance to the next set
bit in ascending order, so it clears the lowest set bit of the word. -/
def bit_r (m : Nat) : Nat := m &&& (m - 1)

/-- Rust `u64::trailing_zeros`: index of the lowest set bit, 64 for the
zero word. -/
def trailing_zeros (m : Nat) : Nat :=
  ((List.range 64).find? (fun k => m.testBit k)).getD 64

/-- Modelled from the spec: `avx::u8_to_m256i` (file `csvroll/src/avx.rs`,
absent from the tree) loads the 32 bytes `buf[i..i+32]` into a 256-bit
lane vector, which we represent as the list of loaded bytes. -/
def u8_to_m256i (buf : List Nat) (i : Nat) : List Nat :=
  (buf.drop i).take 32

/-- Modelled from the spec: `avx::u8_to_m256i_rest` loads the remaining
tail `buf[i..]`; per the spec the absent high lanes are zero-filled in the
resulting bitmap, so the model simply omits them and they never compare
equal to the needle. -/
def u8_to_m256i_rest (buf : List Nat) (i : Nat) : List Nat :=
  buf.drop i

/-- Semantics of `mm256_movemask_epi8 (mm256_cmpeq_epi8 x y)`: bit `k` of
the mask is set iff lane `k` of `x` equals the broadcast byte `y`. -/
def movemask_epi8_eq : List Nat → Nat → Nat
  | [], _ => 0
  | x :: xs, y => (if x = y then 1 else 0) + 2 * movemask_epi8_eq xs y

/-- Embedding of `mbitmap` (index_builder.rs): combine the masks of two
32-byte lanes into one 64-bit word, `u64::from(i1) | u64::from(i2) << 32`. -/
def mbitmap (x1 x2 : List Nat) (y : Nat) : Nat :=
  movemask_epi8_eq x1 y ||| (movemask_epi8_eq x2 y <<< 32)

/-- Embedding of the single-lane variant of `mbitmap` in index_builder.rs
(source name ends in the reserved word, hence the `_half` suffix): only
the low 32 bits of the word are populated. -/
def mbitmap_half (x : List Nat) (y : Nat) : Nat :=
  movemask_epi8_eq x y

/-- Embedding of the loop of `build_structural_character_bitmap`
(index_builder.rs): 64-byte strides while at least 64 bytes remain, then
one of three tail cases depending on how many bytes are left. -/
def bscb_go (buf : List Nat) (cf ct : Nat) (i : Nat) (b_fs b_rt : List Nat) :
    List Nat × List Nat :=
  if i + 63 < buf.length then
    bscb_go buf cf ct (i + 64)
      (b_fs ++ [mbitmap (u8_to_m256i buf i) (u8_to_m256i buf (i + 32)) cf])
      (b_rt ++ [mbitmap (u8_to_m256i buf i) (u8_to_m256i buf (i + 32)) ct])
  else if i + 32 < buf.length then
    (b_fs ++ [mbitmap (u8_to_m256i buf i) (u8_to_m256i_rest buf (i + 32)) cf],
     b_rt ++ [mbitmap (u8_to_m256i buf i) (u8_to_m256i_rest buf (i + 32)) ct])
  else if i + 32 = buf.length then
    (b_fs ++ [mbitmap_half (u8_to_m256i buf i) cf],
     b_rt ++ [mbitmap_half (u8_to_m256i buf i) ct])
  else if i < buf.length then
    (b_fs ++ [mbitmap_half (u8_to_m256i_rest buf i) cf],
     b_rt ++ [mbitmap_half (u8_to_m256i_rest buf i) ct])
  else (b_fs, b_rt)
termination_by buf.length - i
decreasing_by omega

/-- Embedding of `build_structural_character_bitmap` (index_builder.rs):
the separator bitmap and the terminator bitmap of a byte window. -/
def build_structural_character_bitmap (buf : List Nat) (cf ct : Nat) :
    List Nat × List Nat :=
  bscb_go buf cf ct 0 [] []

/-- Embedding of the inner bit loop of `build_main_index`
(index_builder.rs): repeatedly take the lowest set bit of the combined
word `m_field_rec`, close a field there, and close a record as well when
the bit also belongs to the terminator word `m_rec`.  Returns the updated
`f_start`, `last_f_count` and index. -/
def merge_word (base : Nat) (mfr mr fStart lastF : Nat) (idx : Index) :
    Nat × Nat × Index :=
  if h : mfr = 0 then (fStart, lastF, idx)
  else
    let k := trailing_zeros mfr
    let fEnd := base + k
    let idx1 := idx.push_field (fStart, fEnd)
    let fStart1 := fEnd + 1
    let lastF1 := lastF + 1
    if trailing_zeros mfr = trailing_zeros mr then
      merge_word base (bit_r mfr) (bit_r mr) fStart1 lastF1 (idx1.push_record lastF1)
    else
      merge_word base (bit_r mfr) mr fStart1 lastF1 idx1
termination_by mfr
decreasing_by
  all_goals
    have hb : mfr &&& (mfr - 1) ≤ mfr - 1 := Nat.and_le_right
    simp only [bit_r]
    omega

/-- Embedding of the word loop of `build_main_index` (index_builder.rs):
fold `merge_word` over the zipped bitmap words, tracking the word counter
`i`, `f_start` and `last_f_count`. -/
def merge_words (buf_offset : Nat) :
    List (Nat × Nat) → Nat → Nat → Nat → Index → Nat × Nat × Nat × Index
  | [], i, fStart, lastF, idx => (i, fStart, lastF, idx)
  | (f, r) :: rest, i, fStart, lastF, idx =>
    let s := merge_word (buf_offset + i * 64) (f ||| r) r fStart lastF idx
    merge_words buf_offset rest (i + 1) s.1 s.2.1 s.2.2

/-- Embedding of `build_main_index` (index_builder.rs): walk the bitmap
words, then append the trailing field ending at
`buf_offset + i * 64 - appendix` and the trailing record. -/
def build_main_index (b_fs b_rt : List Nat) (buf_offset appendix : Nat)
    (idx : Index) : Index :=
  let s := merge_words buf_offset (b_fs.zip b_rt) 0 buf_offset idx.fields.length idx
  ((s.2.2.2).push_field (s.2.1, buf_offset + s.1 * 64 - appendix)).push_record
    (s.2.2.1 + 1)

/-- Embedding of `IndexBuilder::build` (index_builder.rs): early return on
an empty window, otherwise `appendix = 64 - buf.len() % 64`, the bitmap
pass, and the merge pass. -/
def IndexBuilder_build (field_separator record_terminator : Nat)
    (buf : List Nat) (buf_offset : Nat) (idx : Index) : Index :=
  let b_len := (buf.length + 63) / 64
  if b_len = 0 then idx
  else
    let appendix := 64 - buf.length % 64
    let b := build_structural_character_bitmap buf field_separator record_terminator
    build_main_index b.1 b.2 buf_offset appendix idx

/-- Embedding of `rollbuf::RollBuf`: the unread source bytes, the backing
storage (whose length is the capacity), the consumed position, the fill
position `end`, the `is_rolled` flag and the growth ceiling. -/
structure RollBuf where
  inner : List Nat
  buf : List Nat
  pos : Nat
  endp : Nat
  is_rolled : Bool
  max_cap : Nat
  deriving Repr, DecidableEq

/-- Embedding of `RollBuf::with_capacity`. -/
def RollBuf.with_capacity (cap : Nat) (inner : List Nat) : RollBuf :=
  ⟨inner, List.replicate cap 0, 0, 0, false, 2 ^ 24⟩

/-- Embedding of `RollBuf::contents`: the view `buf[pos..end]`. -/
def RollBuf.contents (b : RollBuf) : List Nat :=
  (b.buf.take b.endp).drop b.pos

/-- Embedding of `RollBuf::consume`: advance `pos`, saturating at `end`. -/
def RollBuf.consume (b : RollBuf) (n : Nat) : RollBuf :=
  { b with pos := min (b.pos + n) b.endp }

/-- Embedding of `RollBuf::roll`: with `pos > 0`, compact `buf[pos..end]`
to the front (through the scratch buffer) leaving the tail bytes in
place; with `pos == 0`, grow the storage by `min(len, max_cap - len)`
zero bytes.  Either way set `is_rolled`. -/
def RollBuf.roll (b : RollBuf) : RollBuf :=
  if 0 < b.pos then
    let retained := (b.buf.take b.endp).drop b.pos
    { b with
      buf := retained ++ b.buf.drop retained.length,
      pos := 0,
      endp := retained.length,
      is_rolled := true }
  else
    let reserved := min b.buf.length (b.max_cap - b.buf.length)
    { b with buf := b.buf ++ List.replicate reserved 0, is_rolled := true }

/-- Embedding of `RollBuf::fill_buf` for a source that always serves
`min(remaining, requested)` bytes: the first read refills the whole
storage when everything was consumed, the second read tops up `buf[end..]`
after a roll.  Returns the new state and the `is_full` flag. -/
def RollBuf.fill_buf (b : RollBuf) : RollBuf × Bool :=
  let b1 :=
    if b.endp ≤ b.pos then
      let n := min b.inner.length b.buf.length
      { b with inner := b.inner.drop n,
               buf := b.inner.take n ++ b.buf.drop n,
               pos := 0, endp := n }
    else b
  let b2 :=
    if b1.is_rolled then
      let n := min b1.inner.length (b1.buf.length - b1.endp)
      { b1 with inner := b1.inner.drop n,
                buf := b1.buf.take b1.endp ++ b1.inner.take n
                  ++ b1.buf.drop (b1.endp + n),
                endp := b1.endp + n,
                is_rolled := false }
    else b1
  (b2, b2.buf.length == b2.endp)

/-- Embedding of `roll_index` (parser.rs): copy the retained suffixes of
`fields` and `records` through the scratch index, then subtract
`buf_offset` from both bounds of every field and `field_offset` from
every record bound (the two in-place `for` loops). -/
def roll_index (idx : Index) (buf_offset field_offset record_offset : Nat) : Index :=
  { fields := (idx.fields.drop field_offset).map
      (fun f => (f.1 - buf_offset, f.2 - buf_offset)),
    records := (idx.records.drop record_offset).map
      (fun r => r - field_offset) }

/-- Embedding of the state of `csvroll::parser::Parser`: roll buffer,
index, the pending `consume` request and the resume point `parsed`. -/
structure ParserState where
  buf : RollBuf
  idx : Index
  consumed : Option Nat
  parsed : Nat
  deriving Repr, DecidableEq

/-- The field offset of the re-base step of `Parser::parse`:
`idx.records.get(consumed - 1).unwrap_or(&idx.fields.len())`. -/
def rebase_field_offset (p : ParserState) (n : Nat) : Nat :=
  p.idx.records.getD (n - 1) p.idx.fields.length

/-- The byte offset of the re-base step of `Parser::parse`: the start of
the first retained field, or `parsed` when no field is retained. -/
def rebase_buf_offset (p : ParserState) (n : Nat) : Nat :=
  match p.idx.fields[rebase_field_offset p n]? with
  | some f => f.1
  | none => p.parsed

/-- Embedding of the re-base step of `Parser::parse` (parser.rs lines
98-121): on a pending `consume(n)` with `n > 0`, consume the byte offset,
roll the buffer, re-base the index and adjust `parsed`; on `consume(0)`
just roll (growing the buffer); afterwards `parse` continues with
`fill_buf` and the indexer. -/
def parse_rebase (p : ParserState) : ParserState :=
  match p.consumed with
  | some consumed =>
    if 0 < consumed then
      let record_offset := min consumed p.idx.records.length
      let field_offset := rebase_field_offset p consumed
      let buf_offset := rebase_buf_offset p consumed
      { p with
        buf := (p.buf.consume buf_offset).roll,
        idx := roll_index p.idx buf_offset field_offset record_offset,
        parsed := p.parsed - buf_offset }
    else
      { p with buf := p.buf.roll }
  | none => p

/-- The fields of one record, `&fields[r.start..r.end]` (printer.rs,
group_zerocopy.rs). -/
def rec_fields (fields : List (Nat × Nat)) (r : Nat × Nat) : List (Nat × Nat) :=
  (fields.drop r.1).take (r.2 - r.1)

/-- The slice `&records[print.start..print.end]` of record bounds handed
to the printers. -/
def recs_seg (records : List Nat) (pr : Nat × Nat) : List Nat :=
  (records.drop pr.1).take (pr.2 - pr.1)

/-- Embedding of the start-bound computation of `print_both` and
`print_single` (printer.rs):
`print.start.checked_sub(1).and_then(|i| records.get(i))` with 0 as the
fallback. -/
def seg_start (records : List Nat) (pr : Nat × Nat) : Nat :=
  match pr.1 with
  | 0 => 0
  | m + 1 => records.getD m 0

/-- The half-open field ranges of the successive records of a segment:
record `i` of the segment spans from the previous bound (`start` for the
first) to `seg[i]`. -/
def rec_ranges (start : Nat) (seg : List Nat) : List (Nat × Nat) :=
  (start :: seg).zip seg

/-- Embedding of the key-prefix serialisation of `print_both`
(printer.rs): the key fields of the left record in `key_idx0` order,
separated by the delimiter; the flag mirrors `is_first`. -/
def key_buf_go (buf0 : List Nat) (r0f : List (Nat × Nat)) (d : Nat) :
    List Nat → Bool → List Nat
  | [], _ => []
  | k :: ks, isFirst =>
    (if isFirst then [] else [d]) ++ sliceR buf0 (r0f.getD k (0, 0))
      ++ key_buf_go buf0 r0f d ks false

/-- The key prefix written for one left record (`is_first` starts true). -/
def write_key_fields (buf0 : List Nat) (r0f : List (Nat × Nat)) (key_idx : List Nat)
    (d : Nat) : List Nat :=
  key_buf_go buf0 r0f d key_idx true

/-- Embedding of the non-key loops of `print_both` / `print_single`
(printer.rs): for each ascending key index, write the fields strictly
before it (each preceded by the delimiter) and skip the key position;
finally write the remaining fields. -/
def write_non_key (buf : List Nat) (rf : List (Nat × Nat)) (d : Nat) :
    Nat → List Nat → List Nat
  | start, [] => ((rf.drop start).map (fun f => d :: sliceR buf f)).flatten
  | start, k :: ks =>
    (((rf.drop start).take (k - start)).map (fun f => d :: sliceR buf f)).flatten
      ++ write_non_key buf rf d (k + 1) ks

/-- One output row of `print_both`: the cached key prefix, the left
record's non-key fields, the right record's non-key fields, the
terminator. -/
def both_row (d t : Nat) (key_idx0 key_idx0_asc key_idx1_asc : List Nat)
    (buf0 buf1 : List Nat) (r0f r1f : List (Nat × Nat)) : List Nat :=
  write_key_fields buf0 r0f key_idx0 d ++ write_non_key buf0 r0f d 0 key_idx0_asc
    ++ write_non_key buf1 r1f d 0 key_idx1_asc ++ [t]

/-- Embedding of the inner (right-record) loop of `print_both`
(printer.rs): for each right bound, rebuild the key prefix if the cache
is empty, emit one row, advance `r1.start`.  Returns the written bytes
and the final cache. -/
def print_both_inner (d t : Nat) (key_idx0 key_idx0_asc key_idx1_asc : List Nat)
    (buf0 buf1 : List Nat) (fields1 : List (Nat × Nat)) (r0f : List (Nat × Nat)) :
    List Nat → Nat → List Nat → List Nat × List Nat
  | [], _, kb => ([], kb)
  | r1e :: rest, r1start, kb =>
    let r1f := rec_fields fields1 (r1start, r1e)
    let kb1 := if kb.isEmpty then write_key_fields buf0 r0f key_idx0 d else kb
    let row := kb1 ++ write_non_key buf0 r0f d 0 key_idx0_asc
      ++ write_non_key buf1 r1f d 0 key_idx1_asc ++ [t]
    let rest1 := print_both_inner d t key_idx0 key_idx0_asc key_idx1_asc buf0 buf1
      fields1 r0f rest r1e kb1
    (row ++ rest1.1, rest1.2)

/-- Embedding of the outer (left-record) loop of `print_both`
(printer.rs): for each left bound run the inner loop (with `r1.start`
reset to `start1`), advance `r0.start`, and thread the key cache. -/
def print_both_outer (d t : Nat) (key_idx0 key_idx0_asc key_idx1_asc : List Nat)
    (buf0 buf1 : List Nat) (fields0 fields1 : List (Nat × Nat))
    (start1 : Nat) (seg1 : List Nat) :
    List Nat → Nat → List Nat → List Nat
  | [], _, _ => []
  | r0e :: rest, r0start, kb =>
    let r0f := rec_fields fields0 (r0start, r0e)
    let inner := print_both_inner d t key_idx0 key_idx0_asc key_idx1_asc buf0 buf1
      fields1 r0f seg1 start1 kb
    inner.1 ++ print_both_outer d t key_idx0 key_idx0_asc key_idx1_asc buf0 buf1
      fields0 fields1 start1 seg1 rest r0e inner.2

/-- Embedding of `KeyFirst::print_both` (printer.rs): compute the two
start bounds, clear the key cache, and run the nested loops over the two
record-bound segments. -/
def print_both (d t : Nat) (key_idx0 key_idx0_asc key_idx1_asc : List Nat)
    (buf0 buf1 : List Nat) (fields0 fields1 : List (Nat × Nat))
    (records0 records1 : List Nat) (print0 print1 : Nat × Nat) : List Nat :=
  print_both_outer d t key_idx0 key_idx0_asc key_idx1_asc buf0 buf1 fields0 fields1
    (seg_start records1 print1) (recs_seg records1 print1)
    (recs_seg records0 print0) (seg_start records0 print0) []

/-- Embedding of the cursor state of `Group` (group_zerocopy.rs):
`first_rec`, `rec`, `group` and the 1-based record counter. -/
structure GState where
  first_rec : Nat × Nat
  rec_cur : Nat × Nat
  group : Nat × Nat
  rec_count : Nat
  deriving Repr, DecidableEq

/-- Embedding of the cursor initialisation of `Group::init`
(group_zerocopy.rs): anchor at the first record when one exists. -/
def Group_init_state (idx : Index) : GState :=
  match idx.records with
  | re :: _ => ⟨(0, re), (0, re), (0, 1), 1⟩
  | [] => ⟨(0, 0), (0, 0), (0, 0), 0⟩

/-- Embedding of the record loop of `Group::next_group`
(group_zerocopy.rs) over the remaining record bounds, for a window whose
fill was not full (EOF), so that falling off the end flushes the pending
group.  `rc0` is the stored `self.rec_count` at loop entry, used by the
short-record error for its first operand. -/
def scan_recs (buf : List Nat) (fields : List (Nat × Nat)) (key_idx : List Nat)
    (rc0 : Nat) : GState → List Nat → Except String (Option (Nat × Nat) × GState)
  | st, [] =>
    if st.group.1 ≠ st.group.2 then
      .ok (some st.group, { st with group := (st.group.2, st.group.2) })
    else .ok (none, st)
  | st, re :: rs =>
    let rec1 := (st.rec_cur.2, re)
    let rc1 := st.rec_count + 1
    match cmp_records buf buf (rec_fields fields rec1) (rec_fields fields st.first_rec)
        key_idx key_idx with
    | .error e =>
      let c := if e = 0 then rc0 else rc1
      .error ("the record number " ++ toString c ++ " has less fields than the key")
    | .ok .lt =>
      .error ("the record number " ++ toString rc1
        ++ " has the key with lower value than the preceding record")
    | .ok .gt =>
      .ok (some st.group, ⟨rec1, rec1, (st.group.2, st.group.2 + 1), rc1⟩)
    | .ok .eq =>
      scan_recs buf fields key_idx rc0
        ⟨st.first_rec, rec1, (st.group.1, st.group.2 + 1), rc1⟩ rs

/-- Embedding of `Group::next_group` (group_zerocopy.rs) for a window at
EOF (`is_buf_full = false`): one pass of the record loop over
`records[group.end..]`, flushing the final group when the loop falls
through. -/
def next_group_eof (buf : List Nat) (idx : Index) (key_idx : List Nat)
    (st : GState) : Except String (Option (Nat × Nat) × GState) :=
  scan_recs buf idx.fields key_idx st.rec_count st (idx.records.drop st.group.2)

/-- One join side: the window delivered by the parser at EOF together
with the group cursor, as owned by `Group` (group_zerocopy.rs). -/
structure Side where
  buf : List Nat
  idx : Index
  key_idx : List Nat
  st : GState
  deriving Repr, DecidableEq

/-- Advance one side by one `next_group` call. -/
def side_next (s : Side) : Except String (Option (Nat × Nat) × Side) :=
  match next_group_eof s.buf s.idx s.key_idx s.st with
  | .error e => .error e
  | .ok (g, st') => .ok (g, { s with st := st' })

/-- A side built from a window, with the cursor of `Group::init`. -/
def Side.init (buf : List Nat) (idx : Index) (key_idx : List Nat) : Side :=
  ⟨buf, idx, key_idx, Group_init_state idx⟩

/-- Embedding of `JoinOptions` (join.rs). -/
structure JoinOptions where
  show_left : Bool
  show_right : Bool
  show_both : Bool
  deriving Repr, DecidableEq

/-- Embedding of the configuration of the `KeyFirst` printer
(printer.rs): output delimiter and terminator plus the two key index
lists with their ascending copies. -/
structure KeyFirst where
  delimiter : Nat
  terminator : Nat
  key_idx0 : List Nat
  key_idx0_asc : List Nat
  key_idx1 : List Nat
  key_idx1_asc : List Nat
  deriving Repr, DecidableEq

/-- Embedding of the record loop of `print_single` (printer.rs): each
record is printed as its key fields in key order followed by its non-key
fields, terminated by the output terminator. -/
def print_single_go (d t : Nat) (key_idx key_idx_asc : List Nat) (buf : List Nat)
    (fields : List (Nat × Nat)) : List Nat → Nat → List Nat
  | [], _ => []
  | re :: rest, rstart =>
    let rf := rec_fields fields (rstart, re)
    write_key_fields buf rf key_idx d ++ write_non_key buf rf d 0 key_idx_asc
      ++ [t] ++ print_single_go d t key_idx key_idx_asc buf fields rest re

/-- Embedding of `print_single` (printer.rs). -/
def print_single (d t : Nat) (key_idx key_idx_asc : List Nat) (buf : List Nat)
    (fields : List (Nat × Nat)) (records : List Nat) (pr : Nat × Nat) : List Nat :=
  print_single_go d t key_idx key_idx_asc buf fields (recs_seg records pr)
    (seg_start records pr)

/-- Embedding of `KeyFirst::print_left`. -/
def KeyFirst.left_out (p : KeyFirst) (buf : List Nat) (fields : List (Nat × Nat))
    (records : List Nat) (pr : Nat × Nat) : List Nat :=
  print_single p.delimiter p.terminator p.key_idx0 p.key_idx0_asc buf fields records pr

/-- Embedding of `KeyFirst::print_right`. -/
def KeyFirst.right_out (p : KeyFirst) (buf : List Nat) (fields : List (Nat × Nat))
    (records : List Nat) (pr : Nat × Nat) : List Nat :=
  print_single p.delimiter p.terminator p.key_idx1 p.key_idx1_asc buf fields records pr

/-- Embedding of `KeyFirst::print_both` at the printer configuration. -/
def KeyFirst.both_out (p : KeyFirst) (buf0 buf1 : List Nat)
    (fields0 fields1 : List (Nat × Nat)) (records0 records1 : List Nat)
    (pr0 pr1 : Nat × Nat) : List Nat :=
  print_both p.delimiter p.terminator p.key_idx0 p.key_idx0_asc p.key_idx1_asc
    buf0 buf1 fields0 fields1 records0 records1 pr0 pr1

/-- Embedding of the advance phase of the `join` loop (join.rs): based on
the last comparison, pull the next group from the left, the right, or
both, wrapping a group error with its side label. -/
def join_advance (L R : Side) (ord : Ordering) (g0 g1 : Option (Nat × Nat)) :
    Except String (Side × Side × Option (Nat × Nat) × Option (Nat × Nat)) :=
  match ord with
  | .lt =>
    match side_next L with
    | .error e => .error ("left input: " ++ e)
    | .ok (g0', L') => .ok (L', R, g0', g1)
  | .gt =>
    match side_next R with
    | .error e => .error ("right input: " ++ e)
    | .ok (g1', R') => .ok (L, R', g0, g1')
  | .eq =>
    match side_next L with
    | .error e => .error ("left input: " ++ e)
    | .ok (g0', L') =>
      match side_next R with
      | .error e => .error ("right input: " ++ e)
      | .ok (g1', R') => .ok (L', R', g0', g1')

/-- Result of one decision phase of the `join` loop: either the driver
returns, or it continues with a new comparison result and output. -/
inductive JoinStep where
  | stop (out : List Nat) (res : Except String Unit)
  | next (ord : Ordering) (out : List Nat)
  deriving Repr

/-- Embedding of the decision phase of the `join` loop (join.rs): match
on the presence of the two groups, compare the first records of both
groups, and print according to the emission flags. -/
def join_decide (opts : JoinOptions) (p : KeyFirst) (L R : Side)
    (g0 g1 : Option (Nat × Nat)) (out : List Nat) : JoinStep :=
  match g0, g1 with
  | some rng0, some rng1 =>
    let r0 := (L.idx.get_record rng0.1).getD (0, 0)
    let r1 := (R.idx.get_record rng1.1).getD (0, 0)
    match cmp_records L.buf R.buf (rec_fields L.idx.fields r0)
        (rec_fields R.idx.fields r1) L.key_idx R.key_idx with
    | .ok .lt =>
      .next .lt (if opts.show_left then
        out ++ p.left_out L.buf L.idx.fields L.idx.records rng0 else out)
    | .ok .gt =>
      .next .gt (if opts.show_right then
        out ++ p.right_out R.buf R.idx.fields R.idx.records rng1 else out)
    | .ok .eq =>
      .next .eq (if opts.show_both then
        out ++ p.both_out L.buf R.buf L.idx.fields R.idx.fields L.idx.records
          R.idx.records rng0 rng1 else out)
    | .error _ => .stop out (.error "internal: the record was not grouped properly")
  | some rng0, none =>
    if opts.show_left then
      .next .lt (out ++ p.left_out L.buf L.idx.fields L.idx.records rng0)
    else .stop out (.ok ())
  | none, some rng1 =>
    if opts.show_right then
      .next .gt (out ++ p.right_out R.buf R.idx.fields R.idx.records rng1)
    else .stop out (.ok ())
  | none, none => .stop out (.ok ())

/-- Embedding of the `join` driver loop (join.rs), with fuel for the
unbounded Rust loop: advance according to the previous comparison, then
decide and either return or iterate. -/
def join_loop (opts : JoinOptions) (p : KeyFirst) :
    Nat → Side → Side → Ordering → Option (Nat × Nat) → Option (Nat × Nat) →
      List Nat → List Nat × Except String Unit
  | 0, _, _, _, _, _, out => (out, .error "join loop: insufficient fuel")
  | fuel + 1, L, R, ord, g0, g1, out =>
    match join_advance L R ord g0 g1 with
    | .error e => (out, .error e)
    | .ok (L', R', g0', g1') =>
      match join_decide opts p L' R' g0' g1' out with
      | .stop o res => (o, res)
      | .next ord' out' => join_loop opts p fuel L' R' ord' g0' g1' out'

/-- Embedding of `join` (join.rs): the loop starts with `Equal` and no
groups, writing into an empty output. -/
def join_run (opts : JoinOptions) (p : KeyFirst) (fuel : Nat) (L R : Side) :
    List Nat × Except String Unit :=
  join_loop opts p fuel L R .eq none none []

/-- Iterated `next_group` calls on one window at EOF: the groups returned
before the iteration ends, and how it ends (`ok true` is the terminal
no-more-groups signal). -/
def run_groups (buf : List Nat) (idx : Index) (key_idx : List Nat) :
    Nat → GState → List (Nat × Nat) × Except String Bool
  | 0, _ => ([], .error "run groups: insufficient fuel")
  | fuel + 1, st =>
    match next_group_eof buf idx key_idx st with
    | .error e => ([], .error e)
    | .ok (none, _) => ([], .ok true)
    | .ok (some g, st') =>
      let r := run_groups buf idx key_idx fuel st'
      (g :: r.1, r.2)

/-- The exclusive upper field bound of record `n` (1-based), 0 for
`n = 0`: `records[n-1]`. -/
def rec_bound (idx : Index) (n : Nat) : Nat :=
  match n with
  | 0 => 0
  | m + 1 => idx.records.getD m 0

/-- The field range of record `n` (1-based). -/
def rec_range (idx : Index) (n : Nat) : Nat × Nat :=
  (rec_bound idx (n - 1), rec_bound idx n)

/-- Cursor invariant of the record scan, used in the proofs: the group
anchored at record `a` (1-based) currently extends through record `p`,
the counter equals `p`, the cursor ranges match, and every record of the
group compares `Equal` to the anchor (witnessed at `p`). -/
def ScanInv (buf : List Nat) (idx : Index) (key_idx : List Nat) (st : GState)
    (a p : Nat) : Prop :=
  1 ≤ a ∧ a ≤ p ∧ st.group = (a - 1, p) ∧ st.rec_count = p ∧
  st.rec_cur = rec_range idx p ∧ st.first_rec = rec_range idx a ∧
  (p = a ∨ cmp_records buf buf (rec_fields idx.fields (rec_range idx p))
    (rec_fields idx.fields (rec_range idx a)) key_idx key_idx = .ok .eq)

/-- Canonical per-word view of the bitmap pass, used in the proofs: one
64-bit word for each started 64-byte chunk from position `i` on, built
from the two 32-byte half-lanes of the chunk. -/
def wordsFrom (buf : List Nat) (c : Nat) (i : Nat) : List Nat :=
  if i < buf.length then
    mbitmap ((buf.drop i).take 32) ((buf.drop (i + 32)).take 32) c
      :: wordsFrom buf c (i + 64)
  else []
termination_by buf.length - i
decreasing_by omega

/-- Modelled from the spec: the byte scan of the `IndexBuilder::build`
variant that `parser.rs` invokes (its source file is not in the tree).
Walk the remaining window bytes from absolute position `q`: a record
terminator closes the current field and the record, a field separator
closes the field only (the terminator interpretation wins when the two
bytes coincide), and `fStart` tracks the start of the open field.
Returns the extended index and the position after the last structural
byte, the parser's resume point. -/
def scan_go (sep term : Nat) : List Nat → Nat → Nat → Index → Index × Nat
  | [], _, fStart, idx => (idx, fStart)
  | b :: rest, q, fStart, idx =>
    if b = term then
      scan_go sep term rest (q + 1) (q + 1)
        ((idx.push_field (fStart, q)).push_record (idx.fields.length + 1))
    else if b = sep then
      scan_go sep term rest (q + 1) (q + 1) (idx.push_field (fStart, q))
    else
      scan_go sep term rest (q + 1) fStart idx

/-- Modelled from the spec: `IndexBuilder::build` as used by
`Parser::parse` (parser.rs) — scan the unindexed tail of the window; when
the window is not full (EOF), close the dangling record by appending the
trailing field up to the window end and its record bound, unless the
index is already complete.  The behaviour is pinned by the test vectors
of `test_parser` in src/csvroll/src/parser.rs.  Returns the new index
and the new `parsed` position. -/
def build_model (sep term : Nat) (win : List Nat) (parsed : Nat) (isLast : Bool)
    (idx : Index) : Index × Nat :=
  let s := scan_go sep term (win.drop parsed) parsed parsed idx
  if isLast then
    if s.1.records.getLastD 0 < s.1.fields.length ∨ s.2 < win.length then
      (((s.1.push_field (s.2, win.length)).push_record (s.1.fields.length + 1)),
        win.length)
    else (s.1, win.length)
  else (s.1, s.2)

/-- Embedding of the whole of `Parser::parse` (parser.rs): the re-base
step, `RollBuf::fill_buf`, and the indexing of the unindexed window tail;
returns the new parser state and the `is_full` flag. -/
def Parser_parse (sep term : Nat) (p : ParserState) : ParserState × Bool :=
  let p1 := parse_rebase p
  let fb := p1.buf.fill_buf
  let bm := build_model sep term fb.1.contents p1.parsed (!fb.2) p1.idx
  ({ buf := fb.1, idx := bm.1, consumed := p1.consumed, parsed := bm.2 }, fb.2)

/-- One streaming join side: the parser plus the group cursor and the
`is_buf_full` flag, as owned by `Group` (group_zerocopy.rs). -/
structure GroupS where
  pstate : ParserState
  key_idx : List Nat
  st : GState
  is_buf_full : Bool
  deriving Repr, DecidableEq

/-- Embedding of `Group::init` (group_zerocopy.rs) over a fresh roll
buffer: parse once and anchor the cursor at the first record if any. -/
def GroupS.init (sep term : Nat) (buf : RollBuf) (key_idx : List Nat) : GroupS :=
  let pr := Parser_parse sep term ⟨buf, ⟨[], []⟩, none, 0⟩
  ⟨pr.1, key_idx, Group_init_state pr.1.idx, pr.2⟩

/-- Outcome of the record loop of `Group::next_group`: an error, a closed
group, or falling off the indexed records. -/
inductive ScanOut where
  | err (e : String)
  | closed (g : Nat × Nat) (st : GState)
  | fell (st : GState)
  deriving Repr

/-- Embedding of the record loop body of `Group::next_group`
(group_zerocopy.rs), with the loop exit reported explicitly so that the
caller can either flush (EOF) or slide (full window); `scan_recs` is its
instantiation for a window at EOF. -/
def scan_core (buf : List Nat) (fields : List (Nat × Nat)) (key_idx : List Nat)
    (rc0 : Nat) : GState → List Nat → ScanOut
  | st, [] => .fell st
  | st, re :: rs =>
    let rec1 := (st.rec_cur.2, re)
    let rc1 := st.rec_count + 1
    match cmp_records buf buf (rec_fields fields rec1) (rec_fields fields st.first_rec)
        key_idx key_idx with
    | .error e =>
      .err ("the record number " ++ toString (if e = 0 then rc0 else rc1)
        ++ " has less fields than the key")
    | .ok .lt =>
      .err ("the record number " ++ toString rc1
        ++ " has the key with lower value than the preceding record")
    | .ok .gt => .closed st.group ⟨rec1, rec1, (st.group.2, st.group.2 + 1), rc1⟩
    | .ok .eq =>
      scan_core buf fields key_idx rc0
        ⟨st.first_rec, rec1, (st.group.1, st.group.2 + 1), rc1⟩ rs

/-- Embedding of the full `Group::next_group` loop (group_zerocopy.rs):
scan the remaining records; on falling through, either slide the window
(re-base the cursor, `consume` the fully classified records, `parse`
again) and retry when the window was full, or flush the pending group at
EOF.  The fuel bounds the unbounded Rust loop. -/
def next_group_s (sep term : Nat) : Nat → GroupS → Except String (Option (Nat × Nat) × GroupS)
  | 0, _ => .error "next group: insufficient fuel"
  | fuel + 1, g =>
    match scan_core g.pstate.buf.contents g.pstate.idx.fields g.key_idx
        g.st.rec_count g.st (g.pstate.idx.records.drop g.st.group.2) with
    | .err e => .error e
    | .closed rng st' => .ok (some rng, { g with st := st' })
    | .fell st1 =>
      if g.is_buf_full then
        let field_offset := st1.first_rec.1
        let rec_offset := st1.group.1
        let st2 : GState :=
          ⟨(st1.first_rec.1 - field_offset, st1.first_rec.2 - field_offset),
            (st1.rec_cur.1 - field_offset, st1.rec_cur.2 - field_offset),
            (st1.group.1 - rec_offset, st1.group.2 - rec_offset), st1.rec_count⟩
        let pr := Parser_parse sep term { g.pstate with consumed := some rec_offset }
        next_group_s sep term fuel ⟨pr.1, g.key_idx, st2, pr.2⟩
      else
        if st1.group.1 ≠ st1.group.2 then
          .ok (some st1.group,
            { g with st :=
              ⟨st1.first_rec, st1.rec_cur, (st1.group.2, st1.group.2), st1.rec_count⟩ })
        else .ok (none, { g with st := st1 })

/-- Embedding of the advance phase of the `join` loop (join.rs) over the
streaming sides. -/
def join_advance_s (sep term gfuel : Nat) (L R : GroupS) (ord : Ordering)
    (g0 g1 : Option (Nat × Nat)) :
    Except String (GroupS × GroupS × Option (Nat × Nat) × Option (Nat × Nat)) :=
  match ord with
  | .lt =>
    match next_group_s sep term gfuel L with
    | .error e => .error ("left input: " ++ e)
    | .ok (g0', L') => .ok (L', R, g0', g1)
  | .gt =>
    match next_group_s sep term gfuel R with
    | .error e => .error ("right input: " ++ e)
    | .ok (g1', R') => .ok (L, R', g0, g1')
  | .eq =>
    match next_group_s sep term gfuel L with
    | .error e => .error ("left input: " ++ e)
    | .ok (g0', L') =>
      match next_group_s sep term gfuel R with
      | .error e => .error ("right input: " ++ e)
      | .ok (g1', R') => .ok (L', R', g0', g1')

/-- Embedding of the decision phase of the `join` loop (join.rs) over the
streaming sides, printing from the current windows. -/
def join_decide_s (opts : JoinOptions) (p : KeyFirst) (L R : GroupS)
    (g0 g1 : Option (Nat × Nat)) (out : List Nat) : JoinStep :=
  match g0, g1 with
  | some rng0, some rng1 =>
    let r0 := (L.pstate.idx.get_record rng0.1).getD (0, 0)
    let r1 := (R.pstate.idx.get_record rng1.1).getD (0, 0)
    match cmp_records L.pstate.buf.contents R.pstate.buf.contents
        (rec_fields L.pstate.idx.fields r0) (rec_fields R.pstate.idx.fields r1)
        L.key_idx R.key_idx with
    | .ok .lt =>
      .next .lt (if opts.show_left then
        out ++ p.left_out L.pstate.buf.contents L.pstate.idx.fields
          L.pstate.idx.records rng0 else out)
    | .ok .gt =>
      .next .gt (if opts.show_right then
        out ++ p.right_out R.pstate.buf.contents R.pstate.idx.fields
          R.pstate.idx.records rng1 else out)
    | .ok .eq =>
      .next .eq (if opts.show_both then
        out ++ p.both_out L.pstate.buf.contents R.pstate.buf.contents
          L.pstate.idx.fields R.pstate.idx.fields L.pstate.idx.records
          R.pstate.idx.records rng0 rng1 else out)
    | .error _ => .stop out (.error "internal: the record was not grouped properly")
  | some rng0, none =>
    if opts.show_left then
      .next .lt (out ++ p.left_out L.pstate.buf.contents L.pstate.idx.fields
        L.pstate.idx.records rng0)
    else .stop out (.ok ())
  | none, some rng1 =>
    if opts.show_right then
      .next .gt (out ++ p.right_out R.pstate.buf.contents R.pstate.idx.fields
        R.pstate.idx.records rng1)
    else .stop out (.ok ())
  | none, none => .stop out (.ok ())

/-- Embedding of the `join` driver loop (join.rs) over the streaming
sides. -/
def join_loop_s (opts : JoinOptions) (p : KeyFirst) (sep term gfuel : Nat) :
    Nat → GroupS → GroupS → Ordering → Option (Nat × Nat) → Option (Nat × Nat) →
      List Nat → List Nat × Except String Unit
  | 0, _, _, _, _, _, out => (out, .error "join loop: insufficient fuel")
  | fuel + 1, L, R, ord, g0, g1, out =>
    match join_advance_s sep term gfuel L R ord g0 g1 with
    | .error e => (out, .error e)
    | .ok (L', R', g0', g1') =>
      match join_decide_s opts p L' R' g0' g1' out with
      | .stop o res => (o, res)
      | .next ord' out' => join_loop_s opts p sep term gfuel fuel L' R' ord' g0' g1' out'

/-- The full streaming pipeline of `run` (src/src/bin/main.rs): two roll
buffers over the input byte streams, two parsers and group cursors, and
the join driver, which returns the output byte sequence. -/
def join_run_s (opts : JoinOptions) (p : KeyFirst) (sep term gfuel fuel : Nat)
    (capL capR : Nat) (inputL inputR : List Nat) (keyL keyR : List Nat) :
    List Nat × Except String Unit :=
  join_loop_s opts p sep term gfuel fuel
    (GroupS.init sep term (RollBuf.with_capacity capL inputL) keyL)
    (GroupS.init sep term (RollBuf.with_capacity capR inputR) keyR)
    .eq none none []

theorem cmpBytes_self (xs : List Nat) : cmpBytes xs xs = .eq := by
  induction xs with
  | nil => rfl
  | cons x xs ih => simp [cmpBytes, ih]

theorem cmp_records_take (buf0 buf1 : List Nat) (rec_0 rec_1 : List (Nat × Nat)) :
    ∀ (k0 k1 : List Nat),
      cmp_records buf0 buf1 rec_0 rec_1 k0 k1 =
        cmp_records buf0 buf1 rec_0 rec_1
          (k0.take (min k0.length k1.length)) (k1.take (min k0.length k1.length))
  | [], [] => rfl
  | [], _ :: _ => rfl
  | _ :: _, [] => rfl
  | k0 :: ks0, k1 :: ks1 => by
    simp only [List.length_cons, Nat.succ_min_succ, List.take_succ_cons]
    rcases h0 : rec_0[k0]? with _ | f0
    · simp [cmp_records, h0]
    rcases h1 : rec_1[k1]? with _ | f1
    · simp [cmp_records, h0, h1]
    rcases hc : cmpBytes (sliceR buf0 f0) (sliceR buf1 f1) with _ | _ | _
    · simp [cmp_records, h0, h1, hc]
    · simpa [cmp_records, h0, h1, hc] using
        cmp_records_take buf0 buf1 rec_0 rec_1 ks0 ks1
    · simp [cmp_records, h0, h1, hc]

theorem cmp_records_eq_of_zip (buf0 buf1 : List Nat) (rec_0 rec_1 : List (Nat × Nat)) :
    ∀ (k0 k1 : List Nat),
      (∀ p ∈ k0.zip k1, ∃ f0 f1, rec_0[p.1]? = some f0 ∧
        rec_1[p.2]? = some f1 ∧ sliceR buf0 f0 = sliceR buf1 f1) →
      cmp_records buf0 buf1 rec_0 rec_1 k0 k1 = .ok .eq
  | [], [] => fun _ => rfl
  | [], _ :: _ => fun _ => rfl
  | _ :: _, [] => fun _ => rfl
  | k0 :: ks0, k1 :: ks1 => by
    intro h
    obtain ⟨f0, f1, h0, h1, hs⟩ := h (k0, k1) (by simp [List.zip_cons_cons])
    have h0' : rec_0[k0]? = some f0 := h0
    have h1' : rec_1[k1]? = some f1 := h1
    have ih := cmp_records_eq_of_zip buf0 buf1 rec_0 rec_1 ks0 ks1
      (fun p hp => h p (by simp [List.zip_cons_cons, hp]))
    simp only [cmp_records, h0', h1', hs, cmpBytes_self]
    exact ih

/-- Claim C10: `cmp_records` compares only the zipped prefix of the two
key-index lists — the extra indices of the longer list are ignored (the
result is unchanged after truncating both lists to the common length), two
records whose fields agree on every zipped index pair compare `Equal`, and
no length mismatch is ever reported. -/
theorem cmp_records_zip_truncates
    (buf0 buf1 : List Nat) (rec_0 rec_1 : List (Nat × Nat)) (k0 k1 : List Nat) :
    (cmp_records buf0 buf1 rec_0 rec_1 k0 k1 =
      cmp_records buf0 buf1 rec_0 rec_1
        (k0.take (min k0.length k1.length)) (k1.take (min k0.length k1.length))) ∧
    ((∀ p ∈ k0.zip k1, ∃ f0 f1, rec_0[p.1]? = some f0 ∧
        rec_1[p.2]? = some f1 ∧ sliceR buf0 f0 = sliceR buf1 f1) →
      cmp_records buf0 buf1 rec_0 rec_1 k0 k1 = .ok .eq) :=
  ⟨cmp_records_take buf0 buf1 rec_0 rec_1 k0 k1,
   cmp_records_eq_of_zip buf0 buf1 rec_0 rec_1 k0 k1⟩

/-- Claim C10 witness: two two-field records, left key list `[0, 1]` and
right key list `[0]` — the extra left index `1` is ignored and the records
compare `Equal` on the zipped prefix. -/
theorem cmp_records_zip_truncates_witness :
    (cmp_records [97, 98] [97, 99] [(0, 1), (1, 2)] [(0, 1), (1, 2)] [0, 1] [0] =
      cmp_records [97, 98] [97, 99] [(0, 1), (1, 2)] [(0, 1), (1, 2)]
        (List.take (min (List.length [0, 1]) (List.length [0])) [0, 1])
        (List.take (min (List.length [0, 1]) (List.length [0])) [0])) ∧
    cmp_records [97, 98] [97, 99] [(0, 1), (1, 2)] [(0, 1), (1, 2)] [0, 1] [0] =
      .ok .eq :=
  ⟨(cmp_records_zip_truncates [97, 98] [97, 99] [(0, 1), (1, 2)] [(0, 1), (1, 2)]
      [0, 1] [0]).1,
   (cmp_records_zip_truncates [97, 98] [97, 99] [(0, 1), (1, 2)] [(0, 1), (1, 2)]
      [0, 1] [0]).2
    (by
      intro p hp
      have hp' : p = (0, 0) := by simpa using hp
      subst hp'
      exact ⟨(0, 1), (0, 1), rfl, rfl, rfl⟩)⟩

/-- Claim C2 (refuted): `main` matches on the result of
`Args::parse().and_then(run)`; on error it prints exactly one diagnostic
line to the error sink, but it never calls `process::exit`, so the
process exit code is 0 on error as well as on success — contrary to the
claimed nonzero exit code on any error. -/
theorem mainRun_exit_code_always_zero :
    (∀ e, mainRun (.error e) = (0, ["error: " ++ e])) ∧
      mainRun (.ok ()) = (0, []) :=
  ⟨fun _ => rfl, rfl⟩

/-- Claim C3 (refuted): `validate_key` accepts the duplicate key list
given by `-k 1,1` and returns the zero-based indices `[0, 0]` instead of
a configuration error; no duplicate check exists on this code path. -/
theorem validate_key_accepts_duplicates :
    validate_key ["1", "1"] "" = .ok [0, 0] := by
  rfl

/-- Claim C4 (refuted on windows whose length is an exact multiple of 64):
for the 64-byte window of letters `a` scanned at base 0,
`IndexBuilder::build` computes `appendix = 64 - 64 % 64 = 64`, so the
merge pass appends the trailing field `(0, 0)` — ending at base instead of
at `base + 64` — together with the trailing record. -/
theorem IndexBuilder_build_trailing_field_at_multiple_of_64 :
    IndexBuilder_build 44 10 (List.replicate 64 97) 0 ⟨[], []⟩ =
      ⟨[(0, 0)], [1]⟩ := by
  have h1 : build_structural_character_bitmap (List.replicate 64 97) 44 10 =
      ([0], [0]) := by
    unfold build_structural_character_bitmap
    rw [bscb_go]
    norm_num [List.length_replicate]
    rw [bscb_go]
    norm_num [u8_to_m256i, mbitmap]
    decide
  have hw0 : ∀ base mr fS lF idx, merge_word base 0 mr fS lF idx = (fS, lF, idx) := by
    intro base mr fS lF idx
    rw [merge_word.eq_def]
    simp
  have hws : ∀ bo i fS lF idx,
      merge_words bo [(0, 0)] i fS lF idx = (i + 1, fS, lF, idx) := by
    intro bo i fS lF idx
    simp only [merge_words, Nat.zero_or, hw0]
  have h2 : build_main_index [0] [0] 0 64 (⟨[], []⟩ : Index) = ⟨[(0, 0)], [1]⟩ := by
    simp only [build_main_index, List.zip_cons_cons, List.zip_nil_right, hws,
      Index.push_field, Index.push_record, List.length_nil]
    rfl
  unfold IndexBuilder_build
  norm_num [List.length_replicate, h1, h2]

theorem movemask_epi8_eq_lt (xs : List Nat) (y : Nat) :
    movemask_epi8_eq xs y < 2 ^ xs.length := by
  induction xs with
  | nil => simp [movemask_epi8_eq]
  | cons x xs ih =>
    simp only [movemask_epi8_eq, List.length_cons, pow_succ]
    split <;> omega

theorem movemask_epi8_eq_testBit (y : Nat) :
    ∀ (xs : List Nat) (k : Nat),
      ((movemask_epi8_eq xs y).testBit k = true ↔ (k < xs.length ∧ xs.getD k 0 = y))
  | [], k => by simp [movemask_epi8_eq, Nat.zero_testBit]
  | x :: xs, 0 => by
    simp only [movemask_epi8_eq, Nat.testBit_zero, Nat.add_mul_mod_self_left,
      List.length_cons, List.getD_cons_zero]
    split
    · simp_all
    · simp_all
  | x :: xs, k + 1 => by
    have ih := movemask_epi8_eq_testBit y xs k
    simp only [movemask_epi8_eq, Nat.testBit_add_one, List.length_cons,
      List.getD_cons_succ]
    have hdiv : ((if x = y then 1 else 0) + 2 * movemask_epi8_eq xs y) / 2 =
        movemask_epi8_eq xs y := by
      split <;> omega
    rw [hdiv, ih, Nat.add_lt_add_iff_right]

theorem mbitmap_testBit (x1 x2 : List Nat) (y k : Nat) (h1 : x1.length ≤ 32) :
    ((mbitmap x1 x2 y).testBit k = true) ↔
      ((k < x1.length ∧ x1.getD k 0 = y) ∨
        (32 ≤ k ∧ k - 32 < x2.length ∧ x2.getD (k - 32) 0 = y)) := by
  unfold mbitmap
  rw [Nat.testBit_or, Nat.testBit_shiftLeft]
  rcases Nat.lt_or_ge k 32 with hk | hk
  · have hge : (decide (k ≥ 32)) = false := by
      simpa using (by omega : ¬ 32 ≤ k)
    rw [hge]
    simp only [Bool.false_and, Bool.or_false]
    rw [movemask_epi8_eq_testBit]
    constructor
    · exact fun h => .inl h
    · rintro (h | h)
      · exact h
      · exact absurd h.1 (by omega)
  · have ha : (movemask_epi8_eq x1 y).testBit k = false := by
      apply Nat.testBit_eq_false_of_lt
      calc movemask_epi8_eq x1 y < 2 ^ x1.length := movemask_epi8_eq_lt x1 y
        _ ≤ 2 ^ k := Nat.pow_le_pow_right (by omega) (by omega)
    have hge : (decide (k ≥ 32)) = true := by simpa using hk
    rw [ha, hge]
    simp only [Bool.false_or, Bool.true_and]
    rw [movemask_epi8_eq_testBit]
    constructor
    · exact fun h => .inr ⟨hk, h⟩
    · rintro (h | h)
      · exact absurd h.1 (by omega)
      · exact h.2

theorem getD_drop_take (buf : List Nat) (m n k : Nat) (hk : k < n) :
    ((buf.drop m).take n).getD k 0 = buf.getD (m + k) 0 := by
  rw [List.getD_eq_getElem?_getD, List.getElem?_take, if_pos hk, List.getElem?_drop,
    ← List.getD_eq_getElem?_getD]

theorem wordsFrom_getD (buf : List Nat) (c i w : Nat) :
    (wordsFrom buf c i).getD w 0 =
      mbitmap ((buf.drop (i + 64 * w)).take 32) ((buf.drop (i + 64 * w + 32)).take 32)
        c := by
  rw [wordsFrom]
  by_cases hi : i < buf.length
  · rw [if_pos hi]
    cases w with
    | zero => simp
    | succ w =>
      rw [List.getD_cons_succ, wordsFrom_getD buf c (i + 64) w]
      have h64 : i + 64 + 64 * w = i + 64 * (w + 1) := by ring
      rw [h64]
  · rw [if_neg hi]
    have hd : buf.drop (i + 64 * w) = [] := List.drop_eq_nil_of_le (by omega)
    have hd2 : buf.drop (i + 64 * w + 32) = [] := List.drop_eq_nil_of_le (by omega)
    simp [hd, hd2, mbitmap, movemask_epi8_eq, Nat.zero_shiftLeft]
termination_by buf.length - i
decreasing_by omega

theorem wordsFrom_length (buf : List Nat) (c i : Nat) :
    (wordsFrom buf c i).length = (buf.length - i + 63) / 64 := by
  rw [wordsFrom]
  by_cases hi : i < buf.length
  · rw [if_pos hi, List.length_cons, wordsFrom_length buf c (i + 64)]
    omega
  · rw [if_neg hi]
    simp only [List.length_nil]
    omega
termination_by buf.length - i
decreasing_by omega

theorem mbitmap_nil_right (x : List Nat) (c : Nat) :
    mbitmap x [] c = mbitmap_half x c := by
  simp [mbitmap, mbitmap_half, movemask_epi8_eq, Nat.zero_shiftLeft]

theorem bscb_go_eq (buf : List Nat) (cf ct : Nat) (i : Nat) (b_fs b_rt : List Nat) :
    bscb_go buf cf ct i b_fs b_rt =
      (b_fs ++ wordsFrom buf cf i, b_rt ++ wordsFrom buf ct i) := by
  have hw : ∀ c, i < buf.length → wordsFrom buf c i =
      mbitmap ((buf.drop i).take 32) ((buf.drop (i + 32)).take 32) c
        :: wordsFrom buf c (i + 64) := by
    intro c hc
    rw [wordsFrom, if_pos hc]
  rw [bscb_go]
  by_cases h1 : i + 63 < buf.length
  · rw [if_pos h1, bscb_go_eq buf cf ct (i + 64)]
    rw [hw cf (by omega), hw ct (by omega)]
    simp [u8_to_m256i, List.append_assoc]
  · rw [if_neg h1]
    have hnil : ∀ c, wordsFrom buf c (i + 64) = [] := by
      intro c
      rw [wordsFrom, if_neg (by omega)]
    by_cases h2 : i + 32 < buf.length
    · rw [if_pos h2]
      have htk : (buf.drop (i + 32)).take 32 = buf.drop (i + 32) :=
        List.take_of_length_le (by simp [List.length_drop]; omega)
      rw [hw cf (by omega), hw ct (by omega), hnil, hnil, htk]
      simp [u8_to_m256i, u8_to_m256i_rest]
    · rw [if_neg h2]
      by_cases h3 : i + 32 = buf.length
      · rw [if_pos h3]
        have hd2 : buf.drop (i + 32) = [] := List.drop_eq_nil_of_le (by omega)
        rw [hw cf (by omega), hw ct (by omega), hnil, hnil, hd2]
        simp [u8_to_m256i, mbitmap_nil_right]
      · rw [if_neg h3]
        by_cases h4 : i < buf.length
        · rw [if_pos h4]
          have htk : (buf.drop i).take 32 = buf.drop i :=
            List.take_of_length_le (by simp [List.length_drop]; omega)
          have hd2 : buf.drop (i + 32) = [] := List.drop_eq_nil_of_le (by omega)
          rw [hw cf h4, hw ct h4, hnil, hnil, hd2, htk]
          simp [u8_to_m256i_rest, mbitmap_nil_right]
        · rw [if_neg h4]
          have hz : ∀ c, wordsFrom buf c i = [] := by
            intro c
            rw [wordsFrom, if_neg h4]
          rw [hz, hz]
          simp
termination_by buf.length - i
decreasing_by omega

theorem bscb_word_testBit (buf : List Nat) (c w k : Nat) (hk : k < 64) :
    (((wordsFrom buf c 0).getD w 0).testBit k = true) ↔
      (64 * w + k < buf.length ∧ buf.getD (64 * w + k) 0 = c) := by
  rw [wordsFrom_getD]
  have hx1 : ((buf.drop (0 + 64 * w)).take 32).length ≤ 32 := by
    simp [List.length_take]
  rw [mbitmap_testBit _ _ _ _ hx1]
  constructor
  · rintro (⟨hlt, hgd⟩ | ⟨hge, hlt, hgd⟩)
    · have hlen : k < 32 ∧ k < buf.length - (0 + 64 * w) := by
        simpa [List.length_take, List.length_drop, lt_min_iff] using hlt
      refine ⟨by omega, ?_⟩
      rw [getD_drop_take _ _ _ _ (by omega)] at hgd
      simpa using hgd
    · have hlen : k - 32 < 32 ∧ k - 32 < buf.length - (0 + 64 * w + 32) := by
        simpa [List.length_take, List.length_drop, lt_min_iff] using hlt
      refine ⟨by omega, ?_⟩
      rw [getD_drop_take _ _ _ _ (by omega)] at hgd
      have hidx : 0 + 64 * w + 32 + (k - 32) = 64 * w + k := by omega
      rw [hidx] at hgd
      exact hgd
  · rintro ⟨hin, hgd⟩
    by_cases hk32 : k < 32
    · left
      refine ⟨?_, ?_⟩
      · simp only [List.length_take, List.length_drop, lt_min_iff]
        omega
      · rw [getD_drop_take _ _ _ _ hk32]
        simpa using hgd
    · right
      refine ⟨by omega, ?_, ?_⟩
      · simp only [List.length_take, List.length_drop, lt_min_iff]
        omega
      · rw [getD_drop_take _ _ _ _ (by omega)]
        have hidx : 0 + 64 * w + 32 + (k - 32) = 64 * w + k := by omega
        rw [hidx]
        exact hgd

/-- Claim C7: for every byte array and every pair of structural bytes,
`build_structural_character_bitmap` produces separator and terminator
bitmaps of exactly one 64-bit word per started 64-byte chunk, and bit
`64*w + k` of the separator (resp. terminator) bitmap is set iff position
`64*w + k` lies in the array and holds `field_sep` (resp. `rec_term`); all
bits at positions at or beyond the array length — in particular the final
word's high bits when the length is not a multiple of 64 — are zero.
(Spec-modelled: the AVX lane loads of the absent file `avx.rs` follow the
zero-filled-high-bits convention the spec states.) -/
theorem build_structural_character_bitmap_spec (buf : List Nat) (cf ct : Nat) :
    (build_structural_character_bitmap buf cf ct).1.length = (buf.length + 63) / 64 ∧
    (build_structural_character_bitmap buf cf ct).2.length = (buf.length + 63) / 64 ∧
    ∀ w k, k < 64 →
      ((((build_structural_character_bitmap buf cf ct).1.getD w 0).testBit k = true) ↔
        (64 * w + k < buf.length ∧ buf.getD (64 * w + k) 0 = cf)) ∧
      ((((build_structural_character_bitmap buf cf ct).2.getD w 0).testBit k = true) ↔
        (64 * w + k < buf.length ∧ buf.getD (64 * w + k) 0 = ct)) := by
  have he : build_structural_character_bitmap buf cf ct =
      (wordsFrom buf cf 0, wordsFrom buf ct 0) := by
    unfold build_structural_character_bitmap
    rw [bscb_go_eq]
    simp
  rw [he]
  refine ⟨?_, ?_, ?_⟩
  · rw [wordsFrom_length]
    simp
  · rw [wordsFrom_length]
    simp
  · intro w k hk
    exact ⟨bscb_word_testBit buf cf w k hk, bscb_word_testBit buf ct w k hk⟩

/-- Claim C7 witness: the window `[44, 97, 10]` with separator 44 and
terminator 10 — bit 0 of the first separator word is set iff byte 0 is the
separator, and likewise for the terminator bitmap. -/
theorem build_structural_character_bitmap_spec_witness :
    ((((build_structural_character_bitmap [44, 97, 10] 44 10).1.getD 0 0).testBit 0
        = true) ↔
      (64 * 0 + 0 < List.length [44, 97, 10] ∧
        List.getD [44, 97, 10] (64 * 0 + 0) 0 = 44)) ∧
    ((((build_structural_character_bitmap [44, 97, 10] 44 10).2.getD 0 0).testBit 0
        = true) ↔
      (64 * 0 + 0 < List.length [44, 97, 10] ∧
        List.getD [44, 97, 10] (64 * 0 + 0) 0 = 10)) :=
  (build_structural_character_bitmap_spec [44, 97, 10] 44 10).2.2 0 0 (by decide)

/-- Claim C8: with a pending `consume(n)`, `n > 0`, the re-base step of
`Parser::parse` replaces the index by its retained suffix, subtracting the
byte offset (the start of the first retained field) from both bounds of
every retained field range and the field offset from every retained
record bound, and the retained window bytes are exactly the previous
window contents with the consumed byte prefix dropped. -/
theorem parse_rebase_spec (p : ParserState) (n : Nat)
    (hc : p.consumed = some n) (hn : 0 < n)
    (hpos : p.buf.pos = 0) (hend : p.buf.endp ≤ p.buf.buf.length)
    (hbo : rebase_buf_offset p n ≤ p.buf.endp) :
    (parse_rebase p).idx.fields =
      (p.idx.fields.drop (rebase_field_offset p n)).map
        (fun f => (f.1 - rebase_buf_offset p n, f.2 - rebase_buf_offset p n)) ∧
    (parse_rebase p).idx.records =
      (p.idx.records.drop (min n p.idx.records.length)).map
        (fun r => r - rebase_field_offset p n) ∧
    (parse_rebase p).buf.contents = p.buf.contents.drop (rebase_buf_offset p n) := by
  have hstep : parse_rebase p =
      { p with
        buf := (p.buf.consume (rebase_buf_offset p n)).roll,
        idx := roll_index p.idx (rebase_buf_offset p n) (rebase_field_offset p n)
          (min n p.idx.records.length),
        parsed := p.parsed - rebase_buf_offset p n } := by
    unfold parse_rebase
    rw [hc]
    simp [hn]
  refine ⟨by rw [hstep]; simp [roll_index], by rw [hstep]; simp [roll_index], ?_⟩
  rw [hstep]
  have hcons : (p.buf.consume (rebase_buf_offset p n)).pos = rebase_buf_offset p n := by
    simp [RollBuf.consume, hpos]
    omega
  by_cases hz : 0 < rebase_buf_offset p n
  · unfold RollBuf.roll
    rw [hcons]
    rw [if_pos hz]
    simp only [RollBuf.contents, RollBuf.consume]
    rw [List.take_left]
    simp [hpos]
  · have hz0 : rebase_buf_offset p n = 0 := by omega
    unfold RollBuf.roll
    rw [hcons, hz0]
    simp only [RollBuf.contents, RollBuf.consume, Nat.lt_irrefl, if_false]
    simp [hpos, List.take_append_of_le_length hend]

/-- Claim C8 witness: the window `c,d` with fields `c` and `d`, one
complete record, and a pending `consume(1)` — the re-base drops the first
record, subtracts byte offset 2 and field offset 1, and the retained
window is the old window without its first two bytes. -/
theorem parse_rebase_spec_witness :
    (parse_rebase ⟨⟨[], [99, 44, 100, 0], 0, 3, false, 2 ^ 24⟩,
        ⟨[(0, 1), (2, 3)], [1]⟩, some 1, 3⟩).idx.fields =
      (List.drop (rebase_field_offset ⟨⟨[], [99, 44, 100, 0], 0, 3, false, 2 ^ 24⟩,
          ⟨[(0, 1), (2, 3)], [1]⟩, some 1, 3⟩ 1) [(0, 1), (2, 3)]).map
        (fun f => (f.1 - rebase_buf_offset ⟨⟨[], [99, 44, 100, 0], 0, 3, false, 2 ^ 24⟩,
            ⟨[(0, 1), (2, 3)], [1]⟩, some 1, 3⟩ 1,
          f.2 - rebase_buf_offset ⟨⟨[], [99, 44, 100, 0], 0, 3, false, 2 ^ 24⟩,
            ⟨[(0, 1), (2, 3)], [1]⟩, some 1, 3⟩ 1)) ∧
    (parse_rebase ⟨⟨[], [99, 44, 100, 0], 0, 3, false, 2 ^ 24⟩,
        ⟨[(0, 1), (2, 3)], [1]⟩, some 1, 3⟩).idx.records =
      (List.drop (min 1 (List.length [1])) [1]).map
        (fun r => r - rebase_field_offset ⟨⟨[], [99, 44, 100, 0], 0, 3, false, 2 ^ 24⟩,
          ⟨[(0, 1), (2, 3)], [1]⟩, some 1, 3⟩ 1) ∧
    (parse_rebase ⟨⟨[], [99, 44, 100, 0], 0, 3, false, 2 ^ 24⟩,
        ⟨[(0, 1), (2, 3)], [1]⟩, some 1, 3⟩).buf.contents =
      (RollBuf.contents ⟨[], [99, 44, 100, 0], 0, 3, false, 2 ^ 24⟩).drop
        (rebase_buf_offset ⟨⟨[], [99, 44, 100, 0], 0, 3, false, 2 ^ 24⟩,
          ⟨[(0, 1), (2, 3)], [1]⟩, some 1, 3⟩ 1) :=
  parse_rebase_spec ⟨⟨[], [99, 44, 100, 0], 0, 3, false, 2 ^ 24⟩,
      ⟨[(0, 1), (2, 3)], [1]⟩, some 1, 3⟩ 1
    rfl (by decide) rfl (by decide) (by decide)

theorem rec_ranges_cons (s e : Nat) (rest : List Nat) :
    rec_ranges s (e :: rest) = (s, e) :: rec_ranges e rest := rfl

theorem rec_ranges_length (s : Nat) (seg : List Nat) :
    (rec_ranges s seg).length = seg.length := by
  simp only [rec_ranges, List.length_zip, List.length_cons]
  omega

theorem print_both_inner_eq (d t : Nat) (key_idx0 key_idx0_asc key_idx1_asc : List Nat)
    (buf0 buf1 : List Nat) (fields1 : List (Nat × Nat)) (r0f : List (Nat × Nat)) :
    ∀ (seg1 : List Nat) (r1start : Nat) (kb : List Nat),
      (kb = [] ∨ kb = write_key_fields buf0 r0f key_idx0 d) →
      print_both_inner d t key_idx0 key_idx0_asc key_idx1_asc buf0 buf1 fields1 r0f
          seg1 r1start kb =
        (((rec_ranges r1start seg1).map (fun r1 =>
            both_row d t key_idx0 key_idx0_asc key_idx1_asc buf0 buf1 r0f
              (rec_fields fields1 r1))).flatten,
          if seg1.isEmpty then kb else write_key_fields buf0 r0f key_idx0 d)
  | [], r1start, kb, hkb => by
    simp [print_both_inner, rec_ranges]
  | r1e :: rest, r1start, kb, hkb => by
    have hkb1 : (if kb.isEmpty then write_key_fields buf0 r0f key_idx0 d else kb) =
        write_key_fields buf0 r0f key_idx0 d := by
      rcases hkb with h | h
      · simp [h]
      · subst h
        split <;> rfl
    have ih := print_both_inner_eq d t key_idx0 key_idx0_asc key_idx1_asc buf0 buf1
      fields1 r0f rest r1e (write_key_fields buf0 r0f key_idx0 d) (Or.inr rfl)
    simp only [print_both_inner, hkb1, ih, rec_ranges_cons, List.map_cons,
      List.flatten_cons, List.isEmpty_cons, both_row, List.append_assoc]
    apply Prod.ext
    · rfl
    · split <;> rfl

theorem print_both_outer_eq (d t : Nat) (key_idx0 key_idx0_asc key_idx1_asc : List Nat)
    (buf0 buf1 : List Nat) (fields0 fields1 : List (Nat × Nat))
    (start1 : Nat) (seg1 : List Nat) (KB : List Nat) :
    ∀ (seg0 : List Nat) (r0start : Nat) (kb : List Nat),
      (∀ r0 ∈ rec_ranges r0start seg0,
        write_key_fields buf0 (rec_fields fields0 r0) key_idx0 d = KB) →
      (kb = [] ∨ kb = KB) →
      print_both_outer d t key_idx0 key_idx0_asc key_idx1_asc buf0 buf1 fields0
          fields1 start1 seg1 seg0 r0start kb =
        ((rec_ranges r0start seg0).map (fun r0 =>
          ((rec_ranges start1 seg1).map (fun r1 =>
            both_row d t key_idx0 key_idx0_asc key_idx1_asc buf0 buf1
              (rec_fields fields0 r0) (rec_fields fields1 r1))).flatten)).flatten
  | [], r0start, kb, _, _ => by
    simp [print_both_outer, rec_ranges]
  | r0e :: rest, r0start, kb, hkey, hkb => by
    have hhead : write_key_fields buf0 (rec_fields fields0 (r0start, r0e)) key_idx0 d
        = KB :=
      hkey (r0start, r0e) (by rw [rec_ranges_cons]; exact List.mem_cons_self _ _)
    have hkb' : kb = [] ∨
        kb = write_key_fields buf0 (rec_fields fields0 (r0start, r0e)) key_idx0 d := by
      rcases hkb with h | h
      · exact Or.inl h
      · exact Or.inr (by rw [h, hhead])
    have hinner := print_both_inner_eq d t key_idx0 key_idx0_asc key_idx1_asc buf0
      buf1 fields1 (rec_fields fields0 (r0start, r0e)) seg1 start1 kb hkb'
    have hkb2 : (if seg1.isEmpty then kb
        else write_key_fields buf0 (rec_fields fields0 (r0start, r0e)) key_idx0 d)
          = [] ∨
        (if seg1.isEmpty then kb
        else write_key_fields buf0 (rec_fields fields0 (r0start, r0e)) key_idx0 d)
          = KB := by
      split
      · exact hkb
      · exact Or.inr hhead
    have ih := print_both_outer_eq d t key_idx0 key_idx0_asc key_idx1_asc buf0 buf1
      fields0 fields1 start1 seg1 KB rest r0e _
      (fun r0 hr0 => hkey r0 (by rw [rec_ranges_cons]; exact List.mem_cons_of_mem _ hr0))
      hkb2
    simp only [print_both_outer, hinner, ih, rec_ranges_cons, List.map_cons,
      List.flatten_cons]

/-- Claim C1: `print_both` realises the Cartesian product rule — given the
group ranges of `a` left records and `b` right records (all left records
serialising the same key prefix, as grouping guarantees), the output is
exactly the concatenation, over the left records in stream order and for
each left record over the right records in stream order, of one row per
pair, hence exactly `a * b` rows for the shared key. -/
theorem print_both_cartesian (d t : Nat)
    (key_idx0 key_idx0_asc key_idx1_asc : List Nat)
    (buf0 buf1 : List Nat) (fields0 fields1 : List (Nat × Nat))
    (records0 records1 : List Nat) (print0 print1 : Nat × Nat) (KB : List Nat)
    (hkey : ∀ r0 ∈ rec_ranges (seg_start records0 print0) (recs_seg records0 print0),
      write_key_fields buf0 (rec_fields fields0 r0) key_idx0 d = KB) :
    print_both d t key_idx0 key_idx0_asc key_idx1_asc buf0 buf1 fields0 fields1
        records0 records1 print0 print1 =
      ((rec_ranges (seg_start records0 print0) (recs_seg records0 print0)).map
        (fun r0 =>
          ((rec_ranges (seg_start records1 print1) (recs_seg records1 print1)).map
            (fun r1 => both_row d t key_idx0 key_idx0_asc key_idx1_asc buf0 buf1
              (rec_fields fields0 r0) (rec_fields fields1 r1))).flatten)).flatten ∧
    ((rec_ranges (seg_start records0 print0) (recs_seg records0 print0)).map
      (fun r0 =>
        (rec_ranges (seg_start records1 print1) (recs_seg records1 print1)).map
          (fun r1 => both_row d t key_idx0 key_idx0_asc key_idx1_asc buf0 buf1
            (rec_fields fields0 r0) (rec_fields fields1 r1)))).flatten.length =
      (recs_seg records0 print0).length * (recs_seg records1 print1).length := by
  constructor
  · exact print_both_outer_eq d t key_idx0 key_idx0_asc key_idx1_asc buf0 buf1
      fields0 fields1 (seg_start records1 print1) (recs_seg records1 print1) KB
      (recs_seg records0 print0) (seg_start records0 print0) [] hkey (Or.inl rfl)
  · rw [List.length_flatten, List.map_map]
    have hconst : (List.length ∘ fun r0 : Nat × Nat =>
        (rec_ranges (seg_start records1 print1) (recs_seg records1 print1)).map
          (fun r1 => both_row d t key_idx0 key_idx0_asc key_idx1_asc buf0 buf1
            (rec_fields fields0 r0) (rec_fields fields1 r1))) =
        fun _ => (recs_seg records1 print1).length := by
      funext r0
      simp [rec_ranges_length]
    rw [hconst]
    simp [List.map_const, rec_ranges_length]

/-- Claim C1 witness: singleton groups on both sides (`a = b = 1`) with
byte `a` as the shared key — the output is the single row and the row
count is `1 * 1`. -/
theorem print_both_cartesian_witness :
    print_both 44 10 [0] [0] [0] [97] [98] [(0, 1)] [(0, 1)] [1] [1] (0, 1) (0, 1) =
      ((rec_ranges (seg_start [1] (0, 1)) (recs_seg [1] (0, 1))).map
        (fun r0 =>
          ((rec_ranges (seg_start [1] (0, 1)) (recs_seg [1] (0, 1))).map
            (fun r1 => both_row 44 10 [0] [0] [0] [97] [98]
              (rec_fields [(0, 1)] r0) (rec_fields [(0, 1)] r1))).flatten)).flatten ∧
    ((rec_ranges (seg_start [1] (0, 1)) (recs_seg [1] (0, 1))).map
      (fun r0 =>
        (rec_ranges (seg_start [1] (0, 1)) (recs_seg [1] (0, 1))).map
          (fun r1 => both_row 44 10 [0] [0] [0] [97] [98]
            (rec_fields [(0, 1)] r0) (rec_fields [(0, 1)] r1)))).flatten.length =
      (recs_seg [1] (0, 1)).length * (recs_seg [1] (0, 1)).length :=
  print_both_cartesian 44 10 [0] [0] [0] [97] [98] [(0, 1)] [(0, 1)] [1] [1]
    (0, 1) (0, 1) [97] (by decide)

/-- Claim C9: when one side has no more groups (`None`) and the flag that
would show the other side's remaining records is off, the driver returns
success immediately without writing anything; in particular, with only
`show_both` set and an empty input on one side, the whole run emits no
output at all — it succeeds when the other side's first `next_group` call
succeeds, and even when that call fails it still emits nothing. -/
theorem join_exhausted_side_stops
    (opts1 opts2 : JoinOptions) (p : KeyFirst) (L R : Side)
    (rng0 rng1 : Nat × Nat) (out : List Nat) (kr : List Nat)
    (L2 L3 : Side) (fuel : Nat) (e : String) (x : Option (Nat × Nat) × Side)
    (h1 : opts1.show_left = false) (h2 : opts2.show_right = false)
    (he : side_next L2 = .error e) (hx : side_next L3 = .ok x) :
    join_decide opts1 p L R (some rng0) none out = .stop out (.ok ()) ∧
    join_decide opts2 p L R none (some rng1) out = .stop out (.ok ()) ∧
    join_run ⟨false, false, true⟩ p (fuel + 1) L2 (Side.init [] ⟨[], []⟩ kr) =
      ([], .error ("left input: " ++ e)) ∧
    join_run ⟨false, false, true⟩ p (fuel + 1) L3 (Side.init [] ⟨[], []⟩ kr) =
      ([], .ok ()) := by
  have hER : side_next (Side.init [] ⟨[], []⟩ kr) =
      .ok (none, Side.init [] ⟨[], []⟩ kr) := rfl
  refine ⟨?_, ?_, ?_, ?_⟩
  · simp [join_decide, h1]
  · simp [join_decide, h2]
  · simp [join_run, join_loop, join_advance, he]
  · rcases x with ⟨g, L'⟩
    cases g with
    | none => simp [join_run, join_loop, join_advance, hx, hER, join_decide]
    | some rng => simp [join_run, join_loop, join_advance, hx, hER, join_decide]

/-- Claim C9 witness: a concrete run — with only `show_both` set and an
empty right input, the sorted left window terminates successfully with no
output, and the unsorted left window terminates with the left-labelled
error, still with no output. -/
theorem join_exhausted_side_stops_witness :
    join_decide ⟨false, true, true⟩ ⟨44, 10, [0], [0], [0], [0]⟩
        (Side.init [] ⟨[], []⟩ []) (Side.init [] ⟨[], []⟩ [])
        (some (0, 1)) none [] = .stop [] (.ok ()) ∧
    join_decide ⟨true, false, true⟩ ⟨44, 10, [0], [0], [0], [0]⟩
        (Side.init [] ⟨[], []⟩ []) (Side.init [] ⟨[], []⟩ [])
        none (some (0, 1)) [] = .stop [] (.ok ()) ∧
    join_run ⟨false, false, true⟩ ⟨44, 10, [0], [0], [0], [0]⟩ (0 + 1)
        (Side.init [98, 97] ⟨[(0, 1), (1, 2)], [1, 2]⟩ [0])
        (Side.init [] ⟨[], []⟩ [0]) =
      ([], .error ("left input: " ++
        "the record number 2 has the key with lower value than the preceding record")) ∧
    join_run ⟨false, false, true⟩ ⟨44, 10, [0], [0], [0], [0]⟩ (0 + 1)
        (Side.init [97] ⟨[(0, 1)], [1]⟩ [0]) (Side.init [] ⟨[], []⟩ [0]) =
      ([], .ok ()) :=
  join_exhausted_side_stops ⟨false, true, true⟩ ⟨true, false, true⟩
    ⟨44, 10, [0], [0], [0], [0]⟩ (Side.init [] ⟨[], []⟩ [])
    (Side.init [] ⟨[], []⟩ []) (0, 1) (0, 1) [] [0]
    (Side.init [98, 97] ⟨[(0, 1), (1, 2)], [1, 2]⟩ [0])
    (Side.init [97] ⟨[(0, 1)], [1]⟩ [0]) 0
    "the record number 2 has the key with lower value than the preceding record"
    (some (0, 1), ⟨[97], ⟨[(0, 1)], [1]⟩, [0], ⟨(0, 1), (0, 1), (1, 1), 1⟩⟩)
    rfl rfl (by rfl) (by rfl)

theorem cmpBytes_eq_iff : ∀ (x y : List Nat), cmpBytes x y = .eq ↔ x = y
  | [], [] => by simp [cmpBytes]
  | [], _ :: _ => by simp [cmpBytes]
  | _ :: _, [] => by simp [cmpBytes]
  | a :: x, b :: y => by
    by_cases h1 : a < b
    · simp [cmpBytes, h1]
      omega
    · by_cases h2 : b < a
      · simp [cmpBytes, h1, h2]
        omega
      · have hab : a = b := by omega
        simp [cmpBytes, h1, h2, hab, cmpBytes_eq_iff x y]

theorem cmp_records_trans_right_eq (buf : List Nat) :
    ∀ (ks : List Nat) (xa xb xc : List (Nat × Nat)) (o : Ordering),
      cmp_records buf buf xa xb ks ks = .ok o →
      cmp_records buf buf xb xc ks ks = .ok .eq →
      cmp_records buf buf xa xc ks ks = .ok o
  | [], xa, xb, xc, o => by
    intro h1 _
    simpa [cmp_records] using h1
  | k :: ks, xa, xb, xc, o => by
    intro h1 h2
    rcases ha : xa[k]? with _ | fa
    · simp [cmp_records, ha] at h1
    rcases hb : xb[k]? with _ | fb
    · simp [cmp_records, ha, hb] at h1
    rcases hc : xc[k]? with _ | fc
    · simp [cmp_records, hb, hc] at h2
    rcases hbc : cmpBytes (sliceR buf fb) (sliceR buf fc) with _ | _ | _
    · simp [cmp_records, hb, hc, hbc] at h2
    · have hslice : sliceR buf fb = sliceR buf fc := (cmpBytes_eq_iff _ _).mp hbc
      simp only [cmp_records, hb, hc, hbc] at h2
      rcases hab : cmpBytes (sliceR buf fa) (sliceR buf fb) with _ | _ | _
      · simp only [cmp_records, ha, hb, hab] at h1
        simp only [cmp_records, ha, hc, ← hslice, hab]
        exact h1
      · simp only [cmp_records, ha, hb, hab] at h1
        simp only [cmp_records, ha, hc, ← hslice, hab]
        exact cmp_records_trans_right_eq buf ks xa xb xc o h1 h2
      · simp only [cmp_records, ha, hb, hab] at h1
        simp only [cmp_records, ha, hc, ← hslice, hab]
        exact h1
    · simp [cmp_records, hb, hc, hbc] at h2

theorem scan_reaches_descent (buf : List Nat) (idx : Index) (key_idx : List Nat)
    (j : Nat) (hj2 : 2 ≤ j) (hjm : j ≤ idx.records.length)
    (hasc : ∀ i, 1 ≤ i → i + 1 < j →
      cmp_records buf buf (rec_fields idx.fields (rec_range idx (i + 1)))
          (rec_fields idx.fields (rec_range idx i)) key_idx key_idx = .ok .eq ∨
      cmp_records buf buf (rec_fields idx.fields (rec_range idx (i + 1)))
          (rec_fields idx.fields (rec_range idx i)) key_idx key_idx = .ok .gt)
    (hdesc : cmp_records buf buf (rec_fields idx.fields (rec_range idx j))
      (rec_fields idx.fields (rec_range idx (j - 1))) key_idx key_idx = .ok .lt)
    (p a : Nat) (st : GState) (rc0 : Nat)
    (hInv : ScanInv buf idx key_idx st a p) (hpj : p < j) :
    scan_recs buf idx.fields key_idx rc0 st (idx.records.drop p) =
      .error ("the record number " ++ toString j
        ++ " has the key with lower value than the preceding record") ∨
    ∃ q st', p ≤ q ∧ q + 1 < j ∧
      scan_recs buf idx.fields key_idx rc0 st (idx.records.drop p) =
        .ok (some (a - 1, q), st') ∧ ScanInv buf idx key_idx st' (q + 1) (q + 1) := by
  obtain ⟨ha1, hap, hgroup, hrc, hrec, hfirst, hcmp⟩ := hInv
  have hpm : p < idx.records.length := by omega
  have hrb : rec_bound idx (p + 1) = idx.records[p] := by
    show idx.records.getD p 0 = idx.records[p]
    exact List.getD_eq_getElem _ _ hpm
  have hdrop : idx.records.drop p = rec_bound idx (p + 1) :: idx.records.drop (p + 1) := by
    rw [List.drop_eq_getElem_cons hpm, hrb]
  have hrec1 : ((st.rec_cur.2, rec_bound idx (p + 1)) : Nat × Nat) =
      rec_range idx (p + 1) := by
    rw [hrec]
    simp [rec_range]
  have hcand : ∀ o, cmp_records buf buf (rec_fields idx.fields (rec_range idx (p + 1)))
      (rec_fields idx.fields (rec_range idx p)) key_idx key_idx = .ok o →
      cmp_records buf buf (rec_fields idx.fields (rec_range idx (p + 1)))
        (rec_fields idx.fields (rec_range idx a)) key_idx key_idx = .ok o := by
    intro o ho
    rcases hcmp with h | h
    · rw [← h]
      exact ho
    · exact cmp_records_trans_right_eq buf key_idx _ _ _ o ho h
  rw [hdrop]
  by_cases hjp : p + 1 = j
  · have hlt : cmp_records buf buf (rec_fields idx.fields (rec_range idx (p + 1)))
        (rec_fields idx.fields (rec_range idx a)) key_idx key_idx = .ok .lt := by
      apply hcand
      have hj1 : j - 1 = p := by omega
      rw [hjp, ← hj1]
      exact hdesc
    have hlt2 : cmp_records buf buf
        (rec_fields idx.fields (st.rec_cur.2, rec_bound idx (p + 1)))
        (rec_fields idx.fields st.first_rec) key_idx key_idx = .ok .lt := by
      rw [hrec1, hfirst]
      exact hlt
    left
    simp only [scan_recs, hlt2]
    rw [hrc, hjp]
  · rcases hasc p (by omega) (by omega) with hco | hco
    · have hceq := hcand .eq hco
      have hceq2 : cmp_records buf buf
          (rec_fields idx.fields (st.rec_cur.2, rec_bound idx (p + 1)))
          (rec_fields idx.fields st.first_rec) key_idx key_idx = .ok .eq := by
        rw [hrec1, hfirst]
        exact hceq
      have hInv1 : ScanInv buf idx key_idx
          ⟨st.first_rec, (st.rec_cur.2, rec_bound idx (p + 1)),
            (st.group.1, st.group.2 + 1), st.rec_count + 1⟩ a (p + 1) := by
        refine ⟨ha1, by omega, ?_, ?_, ?_, ?_, Or.inr hceq⟩
        · rw [hgroup]
        · rw [hrc]
        · exact hrec1
        · exact hfirst
      have hrec2 := scan_reaches_descent buf idx key_idx j hj2 hjm hasc hdesc
        (p + 1) a _ rc0 hInv1 (by omega)
      simp only [scan_recs, hceq2]
      rcases hrec2 with h | ⟨q, st', hq1, hq2, hq3, hq4⟩
      · left
        exact h
      · right
        exact ⟨q, st', by omega, hq2, hq3, hq4⟩
    · have hcgt := hcand .gt hco
      have hcgt2 : cmp_records buf buf
          (rec_fields idx.fields (st.rec_cur.2, rec_bound idx (p + 1)))
          (rec_fields idx.fields st.first_rec) key_idx key_idx = .ok .gt := by
        rw [hrec1, hfirst]
        exact hcgt
      right
      refine ⟨p, ⟨(st.rec_cur.2, rec_bound idx (p + 1)),
        (st.rec_cur.2, rec_bound idx (p + 1)),
        (st.group.2, st.group.2 + 1), st.rec_count + 1⟩, le_refl p, by omega, ?_, ?_⟩
      · simp only [scan_recs, hcgt2]
        rw [hgroup]
      · refine ⟨by omega, le_refl _, ?_, ?_, ?_, ?_, Or.inl rfl⟩
        · rw [hgroup]
          simp
        · rw [hrc]
        · exact hrec1
        · exact hrec1
termination_by j - p

theorem run_groups_reaches_descent (buf : List Nat) (idx : Index)
    (key_idx : List Nat) (j : Nat) (hj2 : 2 ≤ j) (hjm : j ≤ idx.records.length)
    (hasc : ∀ i, 1 ≤ i → i + 1 < j →
      cmp_records buf buf (rec_fields idx.fields (rec_range idx (i + 1)))
          (rec_fields idx.fields (rec_range idx i)) key_idx key_idx = .ok .eq ∨
      cmp_records buf buf (rec_fields idx.fields (rec_range idx (i + 1)))
          (rec_fields idx.fields (rec_range idx i)) key_idx key_idx = .ok .gt)
    (hdesc : cmp_records buf buf (rec_fields idx.fields (rec_range idx j))
      (rec_fields idx.fields (rec_range idx (j - 1))) key_idx key_idx = .ok .lt) :
    ∀ (fuel p a : Nat) (st : GState), ScanInv buf idx key_idx st a p → p < j →
      j - p ≤ fuel →
      (run_groups buf idx key_idx fuel st).2 =
        .error ("the record number " ++ toString j
          ++ " has the key with lower value than the preceding record") ∧
      ∀ g ∈ (run_groups buf idx key_idx fuel st).1, g.2 < j
  | 0, p, a, st => by
    intro _ hpj hfuel
    omega
  | fuel + 1, p, a, st => by
    intro hInv hpj hfuel
    have hgroup2 : st.group.2 = p := by
      obtain ⟨_, _, hg, _⟩ := hInv
      rw [hg]
    have hng : next_group_eof buf idx key_idx st =
        scan_recs buf idx.fields key_idx st.rec_count st (idx.records.drop p) := by
      unfold next_group_eof
      rw [hgroup2]
    rcases scan_reaches_descent buf idx key_idx j hj2 hjm hasc hdesc p a st
        st.rec_count hInv hpj with herr | ⟨q, st', hq1, hq2, hok, hInv'⟩
    · constructor
      · simp only [run_groups, hng, herr]
      · simp only [run_groups, hng, herr]
        intro g hg
        simp at hg
    · have ih := run_groups_reaches_descent buf idx key_idx j hj2 hjm hasc hdesc
        fuel (q + 1) (q + 1) st' hInv' (by omega) (by omega)
      constructor
      · simp only [run_groups, hng, hok]
        exact ih.1
      · simp only [run_groups, hng, hok]
        intro g hg
        rcases List.mem_cons.mp hg with hg | hg
        · rw [hg]
          omega
        · exact ih.2 g hg

/-- Claim C6: a strict key descent is detected — if the records of a
window are ascending up to record `j - 1` and record `j` compares
strictly below its predecessor, then iterating `next_group` errs with the
message naming the offending 1-based record number `j`, every group
returned before the error ends strictly before record `j`; and the join
driver, at any step whose left (resp. right) `next_group` call errs,
returns that error prefixed with its side label without emitting
anything further. -/
theorem next_group_unsorted_detected (buf : List Nat) (idx : Index)
    (key_idx : List Nat) (j fuel : Nat)
    (opts : JoinOptions) (p : KeyFirst) (R L2 Ls Rs : Side)
    (g0 g1 : Option (Nat × Nat)) (out : List Nat) (dfuel : Nat) (e e2 : String)
    (hj2 : 2 ≤ j) (hjm : j ≤ idx.records.length) (hfuel : j ≤ fuel)
    (hasc : ∀ i, 1 ≤ i → i + 1 < j →
      cmp_records buf buf (rec_fields idx.fields (rec_range idx (i + 1)))
          (rec_fields idx.fields (rec_range idx i)) key_idx key_idx = .ok .eq ∨
      cmp_records buf buf (rec_fields idx.fields (rec_range idx (i + 1)))
          (rec_fields idx.fields (rec_range idx i)) key_idx key_idx = .ok .gt)
    (hdesc : cmp_records buf buf (rec_fields idx.fields (rec_range idx j))
      (rec_fields idx.fields (rec_range idx (j - 1))) key_idx key_idx = .ok .lt)
    (hLs : side_next Ls = .error e) (hRs : side_next Rs = .error e2) :
    (run_groups buf idx key_idx fuel (Group_init_state idx)).2 =
      .error ("the record number " ++ toString j
        ++ " has the key with lower value than the preceding record") ∧
    ((run_groups buf idx key_idx fuel (Group_init_state idx)).1.all
      (fun g => decide (g.2 < j)) = true) ∧
    join_loop opts p (dfuel + 1) Ls R .eq g0 g1 out =
      (out, .error ("left input: " ++ e)) ∧
    join_loop opts p (dfuel + 1) L2 Rs .gt g0 g1 out =
      (out, .error ("right input: " ++ e2)) := by
  have hm1 : 0 < idx.records.length := by omega
  have hinit : ScanInv buf idx key_idx (Group_init_state idx) 1 1 := by
    rcases hrecs : idx.records with _ | ⟨r0, rest⟩
    · rw [hrecs] at hm1
      simp at hm1
    · have hrb1 : rec_bound idx 1 = r0 := by
        show idx.records.getD 0 0 = r0
        rw [hrecs]
        rfl
      refine ⟨le_refl 1, le_refl 1, ?_, ?_, ?_, ?_, Or.inl rfl⟩ <;>
        simp [Group_init_state, hrecs, rec_range, rec_bound, hrb1]
  have hrun := run_groups_reaches_descent buf idx key_idx j hj2 hjm hasc hdesc
    fuel 1 1 (Group_init_state idx) hinit (by omega) (by omega)
  refine ⟨hrun.1, ?_, ?_, ?_⟩
  · rw [List.all_eq_true]
    intro g hg
    simpa using hrun.2 g hg
  · simp only [join_loop, join_advance, hLs]
  · simp only [join_loop, join_advance, hRs]

/-- Claim C6 witness: the two-record window `b a` (descending keys) — the
second record triggers the error naming record 2, no group is returned
that contains record 2, and the driver wraps the error with the left
(resp. right) side label. -/
theorem next_group_unsorted_detected_witness :
    (run_groups [98, 97] ⟨[(0, 1), (1, 2)], [1, 2]⟩ [0] 2
      (Group_init_state ⟨[(0, 1), (1, 2)], [1, 2]⟩)).2 =
      .error ("the record number " ++ toString 2
        ++ " has the key with lower value than the preceding record") ∧
    ((run_groups [98, 97] ⟨[(0, 1), (1, 2)], [1, 2]⟩ [0] 2
      (Group_init_state ⟨[(0, 1), (1, 2)], [1, 2]⟩)).1.all
        (fun g => decide (g.2 < 2)) = true) ∧
    join_loop ⟨true, true, true⟩ ⟨44, 10, [0], [0], [0], [0]⟩ (0 + 1)
        (Side.init [98, 97] ⟨[(0, 1), (1, 2)], [1, 2]⟩ [0])
        (Side.init [] ⟨[], []⟩ []) .eq none none [] =
      ([], .error ("left input: " ++
        "the record number 2 has the key with lower value than the preceding record")) ∧
    join_loop ⟨true, true, true⟩ ⟨44, 10, [0], [0], [0], [0]⟩ (0 + 1)
        (Side.init [] ⟨[], []⟩ [])
        (Side.init [98, 97] ⟨[(0, 1), (1, 2)], [1, 2]⟩ [0]) .gt none none [] =
      ([], .error ("right input: " ++
        "the record number 2 has the key with lower value than the preceding record")) :=
  next_group_unsorted_detected [98, 97] ⟨[(0, 1), (1, 2)], [1, 2]⟩ [0] 2 2
    ⟨true, true, true⟩ ⟨44, 10, [0], [0], [0], [0]⟩
    (Side.init [] ⟨[], []⟩ []) (Side.init [] ⟨[], []⟩ [])
    (Side.init [98, 97] ⟨[(0, 1), (1, 2)], [1, 2]⟩ [0])
    (Side.init [98, 97] ⟨[(0, 1), (1, 2)], [1, 2]⟩ [0])
    none none [] 0
    "the record number 2 has the key with lower value than the preceding record"
    "the record number 2 has the key with lower value than the preceding record"
    (by decide) (by decide) (by decide)
    (by
      intro i h1 h2
      exact absurd h2 (by omega))
    (by rfl) (by rfl) (by rfl)

/-- C5: the joined output byte sequence is NOT independent of the initial
RollBuffer capacity.  With left input "a,b", right input "a,c", key field
1 and `show_both`, an initial left capacity of 4 bytes emits the row
"a,b,c\n" and succeeds, but an initial left capacity of 3 bytes (any
capacity whose first window fills up before a record terminator is seen)
produces no output and fails: the first parse indexes no complete record,
`Group::init` anchors `first_rec` at the empty range 0..0, and after the
slide the comparison against that empty record reports "the record number
1 has less fields than the key".  The two capacities are both ≥ 1 byte,
so the capacity-independence claim fails on the code. -/
theorem join_output_depends_on_rollbuf_capacity :
    join_run_s ⟨false, false, true⟩ ⟨44, 10, [0], [0], [0], [0]⟩ 44 10 4 4 4 4
        [97, 44, 98] [97, 44, 99] [0] [0] =
      ([97, 44, 98, 44, 99, 10], .ok ()) ∧
    join_run_s ⟨false, false, true⟩ ⟨44, 10, [0], [0], [0], [0]⟩ 44 10 4 4 3 4
        [97, 44, 98] [97, 44, 99] [0] [0] =
      ([], .error "left input: the record number 1 has less fields than the key") := by
  exact ⟨rfl, rfl⟩

end Rjoin
